import Mathlib

/-!
Verification of the indexing-orchestration engine of the
Google-Indexing-Automation repository (src/index.ts, src/shared/auth.ts).

The remote collaborators that live outside the translated sources
(getPageIndexingStatus, getPublishMetadata, requestIndexing, getSitemapPages,
checkCustomUrls, checkSiteUrl, the JWT authorize call) are passed in as oracle
parameters, exactly as the spec treats them: black-box functions whose typed
results (a status enum, a numeric HTTP-like code, or a failure) drive the
orchestrator's control flow.  Time is modelled as integer milliseconds.
The bounded batch runner is modelled as sequential state-threading over the
page list; the source's cooperative single-threaded scheduling makes the
per-item operation the unit of atomicity, so the claims below are phrased on
that per-item operation and its fold over the page list.
-/

/-- The closed status enumeration of src/shared/types.ts, as used by index.ts. -/
inductive Status where
  | SubmittedAndIndexed
  | DuplicateWithoutUserSelectedCanonical
  | CrawledCurrentlyNotIndexed
  | DiscoveredCurrentlyNotIndexed
  | PageWithRedirect
  | URLIsUnknownToGoogle
  | RateLimited
  | Forbidden
  | Error
deriving DecidableEq, Repr

/-- One cached entry: the value type of the statusPerUrl record in index.ts. -/
structure StatusRecord where
  status : Status
  lastCheckedAt : Int
deriving DecidableEq, Repr

/-- Service-account credential (src/shared/auth.ts). -/
structure ServiceAccount where
  client_email : String
  private_key : String
deriving DecidableEq, Repr

/-- An entry of validCredentials in index.ts: a credential together with its
current access token (the token field is refreshed in place on rotation). -/
structure Session where
  credential : ServiceAccount
  accessToken : String
deriving DecidableEq, Repr

/-- CACHE_TIMEOUT from index.ts: fourteen days in milliseconds. -/
def CACHE_TIMEOUT : Int := 1000 * 60 * 60 * 24 * 14

/-- The indexableStatuses list of index.ts, in source order. -/
def indexableStatuses : List Status :=
  [Status.DiscoveredCurrentlyNotIndexed, Status.CrawledCurrentlyNotIndexed,
   Status.URLIsUnknownToGoogle, Status.Forbidden, Status.Error, Status.RateLimited]

/-- The shouldRecheck closure of index.ts.  The source compares
new Date(lastCheckedAt) with new Date(Date.now() - CACHE_TIMEOUT); here both
instants are integer milliseconds and the Date.now() observed at the call is
the explicit argument now. -/
def shouldRecheck (now : Int) (status : Status) (lastCheckedAt : Int) : Bool :=
  decide (status ∈ indexableStatuses) && decide (lastCheckedAt < now - CACHE_TIMEOUT)

/-- Result of the status-phase rotate-on-throttle while loop in index.ts:
the final status variable, the final rotationCount, and how many
getPageIndexingStatus calls were made. -/
structure StatusLoopResult where
  status : Status
  rotations : Nat
  calls : Nat
deriving DecidableEq, Repr

/-- The status-phase while loop of index.ts, fuel-indexed.  fetch gives the
result of the getPageIndexingStatus call made on the attempt with the given
rotationCount (each attempt runs under the then-active session).  The two
consecutive source ifs on RateLimited and on Forbidden have identical bodies
(rotateAccount; rotationCount++; continue) and are merged into one test. -/
def statusCheckGo (fetch : Nat → Status) (n : Nat) : Nat → Nat → Status → StatusLoopResult
  | 0, rc, last => ⟨last, rc, 0⟩
  | fuel + 1, rc, last =>
    if rc < n then
      let s := fetch rc
      if s = Status.RateLimited ∨ s = Status.Forbidden then
        let r := statusCheckGo fetch n fuel (rc + 1) s
        ⟨r.status, r.rotations, r.calls + 1⟩
      else ⟨s, rc, 1⟩
    else ⟨last, rc, 0⟩

/-- The full status-phase loop: rotationCount starts at 0, status starts at
Status.Error, and the while condition is rotationCount < n where n is
validCredentials.length.  Fuel n + 1 covers every reachable iteration. -/
def statusCheck (fetch : Nat → Status) (n : Nat) : StatusLoopResult :=
  statusCheckGo fetch n (n + 1) 0 Status.Error

/-- A status result that triggers the rotate-and-retry branch of the
status-phase loop. -/
def throttleStatus (s : Status) : Prop :=
  s = Status.RateLimited ∨ s = Status.Forbidden

instance (s : Status) : Decidable (throttleStatus s) := by
  unfold throttleStatus; infer_instance

/-- How the request-phase while loop of index.ts ends for one URL. -/
inductive ReqOutcome where
  | submitted
  | already
  | ignored
  | exhausted
deriving DecidableEq, Repr

/-- Result of the request-phase while loop for one URL: how it ended (the
processed flag is false exactly for the exhausted outcome), the final
rotationCount, and how many requestIndexing calls were made. -/
structure ReqResult where
  outcome : ReqOutcome
  rotations : Nat
  submitCalls : Nat
deriving DecidableEq, Repr

/-- The request-phase while loop of index.ts, fuel-indexed.  probe gives the
getPublishMetadata result on the attempt with the given rotationCount and
submit the requestIndexing result on that attempt (only consulted when the
probe returned 404). -/
def requestGo (probe submit : Nat → Nat) (n : Nat) : Nat → Nat → ReqResult
  | 0, rc => ⟨ReqOutcome.exhausted, rc, 0⟩
  | fuel + 1, rc =>
    if rc < n then
      if probe rc = 429 ∨ probe rc = 403 then
        let r := requestGo probe submit n fuel (rc + 1)
        ⟨r.outcome, r.rotations, r.submitCalls⟩
      else if probe rc = 404 then
        if submit rc = 429 ∨ submit rc = 403 then
          let r := requestGo probe submit n fuel (rc + 1)
          ⟨r.outcome, r.rotations, r.submitCalls + 1⟩
        else ⟨ReqOutcome.submitted, rc, 1⟩
      else if probe rc < 400 then ⟨ReqOutcome.already, rc, 0⟩
      else ⟨ReqOutcome.ignored, rc, 0⟩
    else ⟨ReqOutcome.exhausted, rc, 0⟩

/-- The full request-phase loop for one URL: rotationCount starts at 0 and the
while condition is rotationCount < n where n is validCredentials.length. -/
def requestPhase (probe submit : Nat → Nat) (n : Nat) : ReqResult :=
  requestGo probe submit n (n + 1) 0

/-- An attempt of the request-phase loop that takes one of its two
rotate-and-retry branches: the probe returned 429 or 403, or the probe
returned 404 and the subsequent submission returned 429 or 403. -/
def attemptThrottled (probe submit : Nat → Nat) (k : Nat) : Prop :=
  probe k = 429 ∨ probe k = 403 ∨ (probe k = 404 ∧ (submit k = 429 ∨ submit k = 403))

instance (probe submit : Nat → Nat) (k : Nat) : Decidable (attemptThrottled probe submit k) := by
  unfold attemptThrottled; infer_instance

/-- Number of attempts in the half-open window starting at rc of the given
length whose probe returned 404 (each such attempt performs one
requestIndexing call). -/
def count404 (probe : Nat → Nat) : Nat → Nat → Nat
  | _, 0 => 0
  | rc, len + 1 => (if probe rc = 404 then 1 else 0) + count404 probe (rc + 1) len

/-- The outcome the request-phase loop reports when its first
non-throttled attempt is attempt k. -/
def reqOutcomeAt (probe : Nat → Nat) (k : Nat) : ReqOutcome :=
  if probe k = 404 then ReqOutcome.submitted
  else if probe k < 400 then ReqOutcome.already
  else ReqOutcome.ignored

/-- The statusPerUrl store: a JSON object keyed by URL, modelled as an
association list with the object's insertion order. -/
def lookupRecord : List (String × StatusRecord) → String → Option StatusRecord
  | [], _ => none
  | p :: rest, url => if p.1 = url then some p.2 else lookupRecord rest url

/-- Assignment statusPerUrl[url] = r on a JSON object: replace the value in
place when the key exists, otherwise append the new key at the end. -/
def setRecord : List (String × StatusRecord) → String → StatusRecord → List (String × StatusRecord)
  | [], url, r => [(url, r)]
  | p :: rest, url, r =>
    if p.1 = url then (url, r) :: rest else p :: setRecord rest url r

/-- The per-URL operation of the status-check batch in index.ts: consult the
cache, run the rotate-on-throttle loop on a miss or a stale indexable record,
and overwrite the record with the fresh status and the current timestamp.
time url is the Date.now() instant at which that URL is processed (used for
both its staleness check and the written lastCheckedAt); fetch url gives the
getPageIndexingStatus results for that URL, indexed by rotationCount.
Returns the updated store, the surfaced record, and the number of remote
status calls made. -/
def processUrlStatus (fetch : String → Nat → Status) (n : Nat) (time : String → Int)
    (st : List (String × StatusRecord)) (url : String) :
    List (String × StatusRecord) × StatusRecord × Nat :=
  match lookupRecord st url with
  | none =>
    let res := statusCheck (fetch url) n
    let r : StatusRecord := ⟨res.status, time url⟩
    (setRecord st url r, r, res.calls)
  | some r0 =>
    if shouldRecheck (time url) r0.status r0.lastCheckedAt then
      let res := statusCheck (fetch url) n
      let r : StatusRecord := ⟨res.status, time url⟩
      (setRecord st url r, r, res.calls)
    else (st, r0, 0)

/-- Outcome of the whole status-check phase: the final statusPerUrl store
(written back to the cache file in one writeFileSync at the end of the
phase), the processed (url, record) pairs in processing order (the source
appends each url to pagesPerStatus[record.status], so the per-status
partition lists are derived from these pairs), and the total number of
remote status calls. -/
structure PhaseResult where
  cache : List (String × StatusRecord)
  pairs : List (String × StatusRecord)
  calls : Nat
deriving DecidableEq, Repr

/-- The status-check phase of index.ts over the resolved page list.  The
source runs the per-URL operation through the bounded batch runner; under
the single cooperative scheduling context each per-URL operation reads and
writes the shared store atomically, modelled here as a sequential fold in
page order. -/
def runStatusPhase (fetch : String → Nat → Status) (n : Nat) (time : String → Int) :
    List (String × StatusRecord) → List String → PhaseResult
  | st, [] => ⟨st, [], 0⟩
  | st, url :: rest =>
    let step := processUrlStatus fetch n time st url
    let res := runStatusPhase fetch n time step.1 rest
    ⟨res.cache, (url, step.2.1) :: res.pairs, step.2.2 + res.calls⟩

/-- The pagesPerStatus[s] list after the phase: the processed URLs whose
surfaced record has status s, in processing order. -/
def pagesWithStatus (pairs : List (String × StatusRecord)) (s : Status) : List String :=
  (pairs.filter (fun p => decide (p.2.status = s))).map Prod.fst

/-- The keys of the pagesPerStatus object literal of index.ts, in its
insertion order (the order Object.entries iterates in). -/
def statusKeys : List Status :=
  [Status.SubmittedAndIndexed, Status.DuplicateWithoutUserSelectedCanonical,
   Status.CrawledCurrentlyNotIndexed, Status.DiscoveredCurrentlyNotIndexed,
   Status.PageWithRedirect, Status.URLIsUnknownToGoogle,
   Status.RateLimited, Status.Forbidden, Status.Error]

/-- The indexablePages computation of index.ts: flatten the pagesPerStatus
entries whose status is indexable, in entry order. -/
def indexablePagesOf (pairs : List (String × StatusRecord)) : List String :=
  (statusKeys.map (fun s =>
    if s ∈ indexableStatuses then pagesWithStatus pairs s else [])).flatten

/-- Page-set resolution of index.ts (phase A).  urls is options.urls after
defaulting (none when neither the option nor GIS_URLS was given); pages
defaults to the empty list, an empty page list triggers sitemap discovery,
zero discovered sitemaps is the fatal exit (none), and a non-empty explicit
list is passed through checkCustomUrls. -/
def resolvePages (urls : Option (List String)) (sitemaps pagesFromSitemaps : List String)
    (checkCustomUrls : List String → List String) : Option (List String) :=
  let pages := urls.getD []
  if pages.length = 0 then
    if sitemaps.length = 0 then none
    else some pagesFromSitemaps
  else some (checkCustomUrls pages)

/-- Page-set resolution followed by the status-check phase: when resolution
exits fatally (none) no batch processing happens at all. -/
def runOrchestrator (fetch : String → Nat → Status) (n : Nat) (time : String → Int)
    (urls : Option (List String)) (sitemaps pagesFromSitemaps : List String)
    (checkCustomUrls : List String → List String)
    (st : List (String × StatusRecord)) : Option PhaseResult :=
  match resolvePages urls sitemaps pagesFromSitemaps checkCustomUrls with
  | none => none
  | some pages => some (runStatusPhase fetch n time st pages)

/-- Result of getAccessToken in src/shared/auth.ts: a missing client_email or
private_key exits the whole process (fatalExit); a failed authorize call or a
missing access token in its response throws (failure), which the caller in
index.ts catches. -/
inductive AuthResult where
  | fatalExit
  | failure
  | token (t : String)
deriving DecidableEq, Repr

/-- getAccessToken of src/shared/auth.ts.  authorize is the oracle for the
googleapis JWT authorize call: some t when it returns tokens with access
token t, none when it rejects or returns no access_token. -/
def getAccessToken (authorize : String → String → Option String)
    (client_email private_key : String) : AuthResult :=
  if client_email = "" then AuthResult.fatalExit
  else if private_key = "" then AuthResult.fatalExit
  else
    match authorize client_email private_key with
    | some t => AuthResult.token t
    | none => AuthResult.failure

/-- The credential-pool loop of index.ts.  checkSiteUrl is the oracle for
shared/gsc.ts checkSiteUrl (not under the translated sources), modelled from
the spec: VerifySiteOwnership returns the canonical site form or fails with
an AccessError, which the loop catches.  Each credential is tried in order:
getAccessToken then checkSiteUrl; a caught failure drops the credential with
a warning; a fatalExit inside getAccessToken (none here) terminates the
process at once; a success appends the session and records the first
verified site URL. -/
def buildPoolGo (authorize : String → String → Option String)
    (checkSiteUrl : String → Option String) :
    List ServiceAccount → List Session → Option String →
    Option (List Session × Option String)
  | [], acc, v => some (acc, v)
  | c :: rest, acc, v =>
    match getAccessToken authorize c.client_email c.private_key with
    | AuthResult.fatalExit => none
    | AuthResult.failure => buildPoolGo authorize checkSiteUrl rest acc v
    | AuthResult.token t =>
      match checkSiteUrl t with
      | none => buildPoolGo authorize checkSiteUrl rest acc v
      | some u =>
        buildPoolGo authorize checkSiteUrl rest (acc ++ [⟨c, t⟩])
          (match v with
           | some w => some w
           | none => some u)

/-- The credential-pool loop started on an empty validCredentials list and no
verified site URL. -/
def buildPool (authorize : String → String → Option String)
    (checkSiteUrl : String → Option String) (creds : List ServiceAccount) :
    Option (List Session × Option String) :=
  buildPoolGo authorize checkSiteUrl creds [] none

/-- The whole pool-construction phase of index.ts including its fatal check:
none when the process terminated (either inside getAccessToken or because
validCredentials is empty or no site URL was verified), otherwise the pool
and the verified site URL. -/
def credentialPoolPhase (authorize : String → String → Option String)
    (checkSiteUrl : String → Option String) (creds : List ServiceAccount) :
    Option (List Session × String) :=
  match buildPool authorize checkSiteUrl creds with
  | none => none
  | some (pool, v) =>
    if pool.length = 0 then none
    else
      match v with
      | none => none
      | some u => some (pool, u)

/-- Whether one credential makes it into the pool: its getAccessToken call
yields a token and the ownership check on that token succeeds. -/
def credentialSucceeds (authorize : String → String → Option String)
    (checkSiteUrl : String → Option String) (c : ServiceAccount) : Bool :=
  match getAccessToken authorize c.client_email c.private_key with
  | AuthResult.token t => (checkSiteUrl t).isSome
  | _ => false

/-- In-place token refresh of the session at the given position, modelling
the assignment next.accessToken = await getAccessToken(...) in rotateAccount. -/
def refreshAt (getTok : ServiceAccount → String) : List Session → Nat → List Session
  | [], _ => []
  | s :: rest, 0 => ⟨s.credential, getTok s.credential⟩ :: rest
  | s :: rest, i + 1 => s :: refreshAt getTok rest i

/-- rotateAccount of index.ts: advance currentAccountIndex by one modulo
validCredentials.length, then refresh the newly active session's access
token in place.  getTok is the token oracle for the successful
getAccessToken call.  Returns the updated pool and the new index. -/
def rotateAccount (getTok : ServiceAccount → String) (pool : List Session) (idx : Nat) :
    List Session × Nat :=
  let next := (idx + 1) % pool.length
  (refreshAt getTok pool next, next)

/-- C2: shouldRecheck is true iff the status is one of the six indexable
statuses and lastCheckedAt is older than fourteen days before now; moreover
every non-indexable status yields false regardless of the timestamps. -/
theorem c2_shouldRecheck_iff (now lastCheckedAt : Int) (s : Status) :
    (shouldRecheck now s lastCheckedAt = true ↔
      ((s = Status.DiscoveredCurrentlyNotIndexed ∨ s = Status.CrawledCurrentlyNotIndexed ∨
        s = Status.URLIsUnknownToGoogle ∨ s = Status.Forbidden ∨
        s = Status.Error ∨ s = Status.RateLimited) ∧
       lastCheckedAt < now - CACHE_TIMEOUT)) ∧
    shouldRecheck now Status.SubmittedAndIndexed lastCheckedAt = false ∧
    shouldRecheck now Status.DuplicateWithoutUserSelectedCanonical lastCheckedAt = false ∧
    shouldRecheck now Status.PageWithRedirect lastCheckedAt = false := by
  refine ⟨?_, ?_, ?_, ?_⟩ <;>
    cases s <;>
      simp [shouldRecheck, indexableStatuses]

theorem statusCheckGo_rotations_le (fetch : Nat → Status) (n : Nat) :
    ∀ fuel rc last, rc ≤ n → (statusCheckGo fetch n fuel rc last).rotations ≤ n := by
  intro fuel
  induction fuel with
  | zero => intro rc last h; simpa [statusCheckGo] using h
  | succ fuel ih =>
    intro rc last h
    by_cases hrc : rc < n
    · simp only [statusCheckGo, if_pos hrc]
      by_cases ht : fetch rc = Status.RateLimited ∨ fetch rc = Status.Forbidden
      · simpa [ht] using ih (rc + 1) (fetch rc) hrc
      · simpa [ht] using Nat.le_of_lt hrc
    · simpa [statusCheckGo, if_neg hrc] using h

theorem statusCheckGo_exhaust (fetch : Nat → Status) (n : Nat) :
    ∀ fuel rc last, rc ≤ n → n ≤ fuel + rc →
      (∀ k, rc ≤ k → k < n → throttleStatus (fetch k)) →
      statusCheckGo fetch n fuel rc last =
        ⟨if rc < n then fetch (n - 1) else last, n, n - rc⟩ := by
  intro fuel
  induction fuel with
  | zero =>
    intro rc last h1 h2 _
    have : rc = n := Nat.le_antisymm h1 (by omega)
    subst this
    simp [statusCheckGo]
  | succ fuel ih =>
    intro rc last h1 h2 hthr
    by_cases hrc : rc < n
    · have hcur : fetch rc = Status.RateLimited ∨ fetch rc = Status.Forbidden :=
        hthr rc (Nat.le_refl rc) hrc
      have hrec := ih (rc + 1) (fetch rc) hrc (by omega)
        (fun k hk1 hk2 => hthr k (by omega) hk2)
      simp only [statusCheckGo, if_pos hrc, if_pos hcur, hrec, StatusLoopResult.mk.injEq]
      refine ⟨?_, trivial, by omega⟩
      by_cases hlast : rc + 1 < n
      · simp [hlast]
      · have hn1 : n - 1 = rc := by omega
        simp [hlast, hn1]
    · have : rc = n := by omega
      subst this
      simp [statusCheckGo, hrc]

theorem statusCheckGo_break (fetch : Nat → Status) (n k : Nat)
    (hk : k < n) (hthr : ∀ j, j < k → throttleStatus (fetch j))
    (hnt : ¬ throttleStatus (fetch k)) :
    ∀ fuel rc last, rc ≤ k → k < fuel + rc →
      statusCheckGo fetch n fuel rc last = ⟨fetch k, k, k + 1 - rc⟩ := by
  intro fuel
  induction fuel with
  | zero => intro rc last h1 h2; omega
  | succ fuel ih =>
    intro rc last h1 h2
    have hrc : rc < n := by omega
    by_cases heq : rc = k
    · subst heq
      have hnt2 : ¬(fetch rc = Status.RateLimited ∨ fetch rc = Status.Forbidden) := hnt
      have hone : rc + 1 - rc = 1 := by omega
      simp only [statusCheckGo, if_pos hrc, if_neg hnt2, hone]
    · have hlt : rc < k := by omega
      have hcur : fetch rc = Status.RateLimited ∨ fetch rc = Status.Forbidden := hthr rc hlt
      have hrec := ih (rc + 1) (fetch rc) (by omega) (by omega)
      simp only [statusCheckGo, if_pos hrc, if_pos hcur, hrec, StatusLoopResult.mk.injEq]
      exact ⟨trivial, trivial, by omega⟩

theorem requestGo_rotations_le (probe submit : Nat → Nat) (n : Nat) :
    ∀ fuel rc, rc ≤ n → (requestGo probe submit n fuel rc).rotations ≤ n := by
  intro fuel
  induction fuel with
  | zero => intro rc h; simpa [requestGo] using h
  | succ fuel ih =>
    intro rc h
    by_cases hrc : rc < n
    · simp only [requestGo, if_pos hrc]
      by_cases h1 : probe rc = 429 ∨ probe rc = 403
      · simpa [h1] using ih (rc + 1) hrc
      · by_cases h2 : probe rc = 404
        · by_cases h3 : submit rc = 429 ∨ submit rc = 403
          · simpa [h1, h2, h3] using ih (rc + 1) hrc
          · simpa [h1, h2, h3] using Nat.le_of_lt hrc
        · by_cases h4 : probe rc < 400
          · simpa [h1, h2, h4] using Nat.le_of_lt hrc
          · simpa [h1, h2, h4] using Nat.le_of_lt hrc
    · simpa [requestGo, if_neg hrc] using h

theorem requestGo_exhaust (probe submit : Nat → Nat) (n : Nat) :
    ∀ fuel rc, rc ≤ n → n ≤ fuel + rc →
      (∀ k, rc ≤ k → k < n → attemptThrottled probe submit k) →
      requestGo probe submit n fuel rc =
        ⟨ReqOutcome.exhausted, n, count404 probe rc (n - rc)⟩ := by
  intro fuel
  induction fuel with
  | zero =>
    intro rc h1 h2 _
    have : rc = n := Nat.le_antisymm h1 (by omega)
    subst this
    simp [requestGo, count404]
  | succ fuel ih =>
    intro rc h1 h2 hthr
    by_cases hrc : rc < n
    · have hcur : attemptThrottled probe submit rc := hthr rc (Nat.le_refl rc) hrc
      have hrec := ih (rc + 1) hrc (by omega) (fun k hk1 hk2 => hthr k (by omega) hk2)
      have hwin : n - rc = (n - (rc + 1)) + 1 := by omega
      by_cases h1p : probe rc = 429 ∨ probe rc = 403
      · have h404 : ¬ probe rc = 404 := by rcases h1p with h | h <;> omega
        simp only [requestGo, if_pos hrc, if_pos h1p, hrec, ReqResult.mk.injEq]
        refine ⟨trivial, trivial, ?_⟩
        rw [hwin]
        simp [count404, h404]
      · have h404 : probe rc = 404 := by
          rcases hcur with h | h | ⟨h, _⟩
          · exact absurd (Or.inl h) h1p
          · exact absurd (Or.inr h) h1p
          · exact h
        have hsub : submit rc = 429 ∨ submit rc = 403 := by
          rcases hcur with h | h | ⟨_, h⟩
          · exact absurd (Or.inl h) h1p
          · exact absurd (Or.inr h) h1p
          · exact h
        simp only [requestGo, if_pos hrc, if_neg h1p, if_pos h404, if_pos hsub, hrec,
          ReqResult.mk.injEq]
        refine ⟨trivial, trivial, ?_⟩
        rw [hwin]
        simp [count404, h404]
        omega
    · have : rc = n := by omega
      subst this
      simp [requestGo, hrc, count404]

theorem requestGo_break (probe submit : Nat → Nat) (n k : Nat)
    (hk : k < n) (hthr : ∀ j, j < k → attemptThrottled probe submit j)
    (hnt : ¬ attemptThrottled probe submit k) :
    ∀ fuel rc, rc ≤ k → k < fuel + rc →
      requestGo probe submit n fuel rc =
        ⟨reqOutcomeAt probe k, k,
          count404 probe rc (k - rc) + (if probe k = 404 then 1 else 0)⟩ := by
  intro fuel
  induction fuel with
  | zero => intro rc h1 h2; omega
  | succ fuel ih =>
    intro rc h1 h2
    have hrc : rc < n := by omega
    by_cases heq : rc = k
    · subst heq
      have h1p : ¬(probe rc = 429 ∨ probe rc = 403) := by
        intro h
        rcases h with h | h
        · exact hnt (Or.inl h)
        · exact hnt (Or.inr (Or.inl h))
      by_cases h404 : probe rc = 404
      · have hsub : ¬(submit rc = 429 ∨ submit rc = 403) := by
          intro h
          exact hnt (Or.inr (Or.inr ⟨h404, h⟩))
        simp [requestGo, if_pos hrc, h1p, h404, hsub, reqOutcomeAt, count404]
      · simp only [requestGo, if_pos hrc, if_neg h1p, if_neg h404, reqOutcomeAt, count404]
        by_cases h400 : probe rc < 400 <;> simp [h400, count404]
    · have hlt : rc < k := by omega
      have hcur : attemptThrottled probe submit rc := hthr rc hlt
      have hrec := ih (rc + 1) (by omega) (by omega)
      have hwin : k - rc = (k - (rc + 1)) + 1 := by omega
      by_cases h1p : probe rc = 429 ∨ probe rc = 403
      · have h404 : ¬ probe rc = 404 := by rcases h1p with h | h <;> omega
        simp only [requestGo, if_pos hrc, if_pos h1p, hrec, ReqResult.mk.injEq]
        refine ⟨trivial, trivial, ?_⟩
        rw [hwin]
        simp [count404, h404]
      · have h404 : probe rc = 404 := by
          rcases hcur with h | h | ⟨h, _⟩
          · exact absurd (Or.inl h) h1p
          · exact absurd (Or.inr h) h1p
          · exact h
        have hsub : submit rc = 429 ∨ submit rc = 403 := by
          rcases hcur with h | h | ⟨_, h⟩
          · exact absurd (Or.inl h) h1p
          · exact absurd (Or.inr h) h1p
          · exact h
        simp only [requestGo, if_pos hrc, if_neg h1p, if_pos h404, if_pos hsub, hrec,
          ReqResult.mk.injEq]
        refine ⟨trivial, trivial, ?_⟩
        rw [hwin]
        simp [count404, h404]
        omega

theorem reqOutcomeAt_ne_exhausted (probe : Nat → Nat) (k : Nat) :
    reqOutcomeAt probe k ≠ ReqOutcome.exhausted := by
  unfold reqOutcomeAt
  by_cases h1 : probe k = 404 <;> by_cases h2 : probe k < 400 <;> simp [h1, h2]

/-- C1: in both phases the rotate-on-throttle loop for one URL performs at
most n rotations, where n is validCredentials.length.  Every throttled call
(RateLimited/Forbidden status, or numeric 429/403 from the probe or the
submission) rotates and increments the counter; when the counter reaches n
the loop stops and the last observed result is the one surfaced (status
phase: the final status variable, which is the last fetched status, or the
initial Error when n = 0; request phase: the loop ends unprocessed after
exactly n rotations); the first non-throttled attempt terminates the loop
immediately with its result and rotation count. -/
theorem c1_rotation_budget (fetch : Nat → Status) (probe submit : Nat → Nat) (n : Nat) :
    (statusCheck fetch n).rotations ≤ n ∧
    (requestPhase probe submit n).rotations ≤ n ∧
    ((∀ k, k < n → throttleStatus (fetch k)) →
      statusCheck fetch n = ⟨if 0 < n then fetch (n - 1) else Status.Error, n, n⟩) ∧
    (∀ k, k < n → (∀ j, j < k → throttleStatus (fetch j)) → ¬ throttleStatus (fetch k) →
      statusCheck fetch n = ⟨fetch k, k, k + 1⟩) ∧
    ((∀ k, k < n → attemptThrottled probe submit k) →
      (requestPhase probe submit n).outcome = ReqOutcome.exhausted ∧
      (requestPhase probe submit n).rotations = n) ∧
    (∀ k, k < n → (∀ j, j < k → attemptThrottled probe submit j) →
      ¬ attemptThrottled probe submit k →
      (requestPhase probe submit n).outcome ≠ ReqOutcome.exhausted ∧
      (requestPhase probe submit n).rotations = k) := by
  refine ⟨?_, ?_, ?_, ?_, ?_, ?_⟩
  · exact statusCheckGo_rotations_le fetch n (n + 1) 0 Status.Error (Nat.zero_le n)
  · exact requestGo_rotations_le probe submit n (n + 1) 0 (Nat.zero_le n)
  · intro h
    have hres := statusCheckGo_exhaust fetch n (n + 1) 0 Status.Error (Nat.zero_le n)
      (by omega) (fun k _ hk => h k hk)
    simpa [statusCheck] using hres
  · intro k hk hthr hnt
    have hres := statusCheckGo_break fetch n k hk hthr hnt (n + 1) 0 Status.Error
      (Nat.zero_le k) (by omega)
    simpa [statusCheck] using hres
  · intro h
    have hres := requestGo_exhaust probe submit n (n + 1) 0 (Nat.zero_le n)
      (by omega) (fun k _ hk => h k hk)
    constructor <;> simp [requestPhase, hres]
  · intro k hk hthr hnt
    have hres := requestGo_break probe submit n k hk hthr hnt (n + 1) 0
      (Nat.zero_le k) (by omega)
    constructor
    · rw [requestPhase, hres]
      exact reqOutcomeAt_ne_exhausted probe k
    · rw [requestPhase, hres]

/-- Witness for c1_rotation_budget: with one valid session and a
rate-limited status call, the loop stops after exactly one rotation and
surfaces the rate-limited result. -/
theorem c1_rotation_budget_witness :
    (∀ k, k < 1 → throttleStatus ((fun _ => Status.RateLimited) k)) ∧
    statusCheck (fun _ => Status.RateLimited) 1 = ⟨Status.RateLimited, 1, 1⟩ :=
  ⟨by decide,
   (c1_rotation_budget (fun _ => Status.RateLimited) (fun _ => 429) (fun _ => 200) 1).2.2.1
     (by decide)⟩

/-- C8: a URL whose publish-metadata probe returns 404 on its first attempt
and whose subsequent submission call returns neither 429 nor 403 has
requestIndexing invoked exactly once, and the loop ends on that first
attempt with the submission made. -/
theorem c8_single_submission (probe submit : Nat → Nat) (n : Nat) (hn : 0 < n)
    (h404 : probe 0 = 404) (h429 : submit 0 ≠ 429) (h403 : submit 0 ≠ 403) :
    requestPhase probe submit n = ⟨ReqOutcome.submitted, 0, 1⟩ := by
  have hnt : ¬ attemptThrottled probe submit 0 := by
    intro h
    rcases h with h | h | ⟨_, h | h⟩
    · omega
    · omega
    · exact h429 h
    · exact h403 h
  have hres := requestGo_break probe submit n 0 hn
    (fun j hj => absurd hj (Nat.not_lt_zero j)) hnt (n + 1) 0 (Nat.le_refl 0) (by omega)
  simpa [requestPhase, reqOutcomeAt, h404, count404] using hres

/-- Witness for c8_single_submission: two sessions, first probe 404,
submission succeeds with 200: exactly one requestIndexing call. -/
theorem c8_single_submission_witness :
    requestPhase (fun _ => 404) (fun _ => 200) 2 = ⟨ReqOutcome.submitted, 0, 1⟩ :=
  c8_single_submission (fun _ => 404) (fun _ => 200) 2 (by decide) (by decide)
    (by decide) (by decide)

/-- Counterexample to C10 as stated: a probe result of 404 is a result other
than 429 and 403, yet the attempt does not end without a submission call —
requestIndexing is invoked (submitCalls = 1). -/
theorem c10_counterexample :
    requestPhase (fun _ => 404) (fun _ => 200) 1 = ⟨ReqOutcome.submitted, 0, 1⟩ ∧
    (404 : Nat) ≠ 429 ∧ (404 : Nat) ≠ 403 ∧
    (requestPhase (fun _ => 404) (fun _ => 200) 1).submitCalls ≠ 0 := by
  decide

/-- C10 amended: in the request phase, an attempt whose probe returns a code
other than 429, 403 and 404 (for example 500, or any code below 400) marks
the URL processed and ends its loop on that attempt, with no submission call
on that attempt (submitCalls stays at the count of earlier 404-probe
attempts) and no failure report; and the per-URL processing-failure message
(the unprocessed outcome) occurs iff every attempt up to the rotation budget
was throttled, where an attempt is throttled when its probe returns 429 or
403, or its probe returns 404 and its submission returns 429 or 403. -/
theorem c10_request_phase_behaviour (probe submit : Nat → Nat) (n : Nat) :
    ((requestPhase probe submit n).outcome = ReqOutcome.exhausted ↔
      ∀ k, k < n → attemptThrottled probe submit k) ∧
    (∀ k, k < n → (∀ j, j < k → attemptThrottled probe submit j) →
      probe k ≠ 429 → probe k ≠ 403 → probe k ≠ 404 →
      requestPhase probe submit n =
        ⟨if probe k < 400 then ReqOutcome.already else ReqOutcome.ignored, k,
          count404 probe 0 k⟩) := by
  constructor
  · constructor
    · intro hex
      by_contra hnot
      push_neg at hnot
      obtain ⟨k0, hk0n, hk0⟩ := hnot
      have hP : ∃ k, k < n ∧ ¬ attemptThrottled probe submit k := ⟨k0, hk0n, hk0⟩
      have hk := Nat.find_spec hP
      have hthr : ∀ j, j < Nat.find hP → attemptThrottled probe submit j := by
        intro j hj
        have hmin := Nat.find_min hP hj
        have hjn : j < n := Nat.lt_trans hj hk.1
        by_contra hcon
        exact hmin ⟨hjn, hcon⟩
      have hres := requestGo_break probe submit n (Nat.find hP) hk.1 hthr hk.2
        (n + 1) 0 (Nat.zero_le _) (by omega)
      rw [requestPhase, hres] at hex
      exact reqOutcomeAt_ne_exhausted probe (Nat.find hP) hex
    · intro h
      have hres := requestGo_exhaust probe submit n (n + 1) 0 (Nat.zero_le n)
        (by omega) (fun k _ hk => h k hk)
      simp [requestPhase, hres]
  · intro k hk hthr h429 h403 h404
    have hnt : ¬ attemptThrottled probe submit k := by
      intro h
      rcases h with h | h | ⟨h, _⟩ <;> omega
    have hres := requestGo_break probe submit n k hk hthr hnt (n + 1) 0
      (Nat.zero_le k) (by omega)
    simpa [requestPhase, reqOutcomeAt, h404, count404] using hres

/-- Witness for c10_request_phase_behaviour: a 500 probe on the first attempt
with one session ends the loop at once, unprocessed-failure does not occur,
and no submission call is made. -/
theorem c10_request_phase_behaviour_witness :
    ((0 : Nat) < 1 ∧ (500 : Nat) ≠ 429 ∧ (500 : Nat) ≠ 403 ∧ (500 : Nat) ≠ 404) ∧
    requestPhase (fun _ => 500) (fun _ => 200) 1 = ⟨ReqOutcome.ignored, 0, 0⟩ :=
  ⟨by decide,
   (c10_request_phase_behaviour (fun _ => 500) (fun _ => 200) 1).2 0 (by decide)
     (fun j hj => absurd hj (Nat.not_lt_zero j)) (by decide) (by decide) (by decide)⟩

theorem lookupRecord_setRecord_self (u : String) (r : StatusRecord) :
    ∀ m : List (String × StatusRecord), lookupRecord (setRecord m u r) u = some r := by
  intro m
  induction m with
  | nil => simp [setRecord, lookupRecord]
  | cons p rest ih =>
    by_cases h : p.1 = u
    · simp [setRecord, h, lookupRecord]
    · simp [setRecord, h, lookupRecord, ih]

theorem lookupRecord_setRecord_ne (u v : String) (r : StatusRecord) (huv : u ≠ v) :
    ∀ m : List (String × StatusRecord), lookupRecord (setRecord m u r) v = lookupRecord m v := by
  intro m
  induction m with
  | nil => simp [setRecord, lookupRecord, huv]
  | cons p rest ih =>
    by_cases h : p.1 = u
    · have hv : ¬ p.1 = v := by rw [h]; exact huv
      simp [setRecord, h, lookupRecord, huv, hv]
    · have hvu : ¬ v = u := fun hh => huv hh.symm
      by_cases hv : p.1 = v
      · simp [setRecord, h, lookupRecord, hv, hvu]
      · simp [setRecord, h, lookupRecord, hv, hvu, ih]

theorem shouldRecheck_at_write_time (t : Int) (s : Status) :
    shouldRecheck t s t = false := by
  have h : ¬ (t < t - CACHE_TIMEOUT) := by unfold CACHE_TIMEOUT; omega
  simp [shouldRecheck, h]

theorem processUrlStatus_lookup_self (fetch : String → Nat → Status) (n : Nat)
    (time : String → Int) (st : List (String × StatusRecord)) (url : String) :
    lookupRecord (processUrlStatus fetch n time st url).1 url =
      some (processUrlStatus fetch n time st url).2.1 ∧
    shouldRecheck (time url) (processUrlStatus fetch n time st url).2.1.status
      (processUrlStatus fetch n time st url).2.1.lastCheckedAt = false := by
  unfold processUrlStatus
  cases hlook : lookupRecord st url with
  | none =>
    simp [lookupRecord_setRecord_self, shouldRecheck_at_write_time]
  | some r0 =>
    by_cases hr : shouldRecheck (time url) r0.status r0.lastCheckedAt
    · simp [hr, lookupRecord_setRecord_self, shouldRecheck_at_write_time]
    · simp only [Bool.not_eq_true] at hr
      simp [hr, hlook]

theorem processUrlStatus_lookup_other (fetch : String → Nat → Status) (n : Nat)
    (time : String → Int) (st : List (String × StatusRecord)) (url v : String)
    (hv : url ≠ v) :
    lookupRecord (processUrlStatus fetch n time st url).1 v = lookupRecord st v := by
  unfold processUrlStatus
  cases hlook : lookupRecord st url with
  | none => simp [lookupRecord_setRecord_ne url v _ hv]
  | some r0 =>
    by_cases hr : shouldRecheck (time url) r0.status r0.lastCheckedAt
    · simp [hr, lookupRecord_setRecord_ne url v _ hv]
    · simp only [Bool.not_eq_true] at hr
      simp [hr]

theorem processUrlStatus_hit (fetch : String → Nat → Status) (n : Nat)
    (time : String → Int) (st : List (String × StatusRecord)) (url : String)
    (r : StatusRecord) (hlook : lookupRecord st url = some r)
    (hfresh : shouldRecheck (time url) r.status r.lastCheckedAt = false) :
    processUrlStatus fetch n time st url = (st, r, 0) := by
  unfold processUrlStatus
  rw [hlook]
  simp [hfresh]

theorem runStatusPhase_preserves_fresh (fetch : String → Nat → Status) (n : Nat)
    (time : String → Int) :
    ∀ (pages : List String) (st : List (String × StatusRecord)) (v : String) (r : StatusRecord),
      lookupRecord st v = some r →
      shouldRecheck (time v) r.status r.lastCheckedAt = false →
      lookupRecord (runStatusPhase fetch n time st pages).cache v = some r := by
  intro pages
  induction pages with
  | nil => intro st v r h1 _; simpa [runStatusPhase] using h1
  | cons url rest ih =>
    intro st v r h1 h2
    by_cases heq : url = v
    · subst heq
      have hstep := processUrlStatus_hit fetch n time st url r h1 h2
      simp only [runStatusPhase, hstep]
      exact ih st url r h1 h2
    · have hother := processUrlStatus_lookup_other fetch n time st url v heq
      simp only [runStatusPhase]
      exact ih _ v r (by rw [hother]; exact h1) h2

theorem runStatusPhase_all_fresh (fetch : String → Nat → Status) (n : Nat)
    (time : String → Int) :
    ∀ (pages : List String) (st : List (String × StatusRecord)) (u : String),
      u ∈ pages →
      ∃ r, lookupRecord (runStatusPhase fetch n time st pages).cache u = some r ∧
        shouldRecheck (time u) r.status r.lastCheckedAt = false := by
  intro pages
  induction pages with
  | nil => intro st u h; cases h
  | cons url rest ih =>
    intro st u hu
    rcases List.mem_cons.mp hu with heq | hmem
    · subst heq
      obtain ⟨h1, h2⟩ := processUrlStatus_lookup_self fetch n time st u
      refine ⟨(processUrlStatus fetch n time st u).2.1, ?_, h2⟩
      simp only [runStatusPhase]
      exact runStatusPhase_preserves_fresh fetch n time rest _ u _ h1 h2
    · obtain ⟨r, h1, h2⟩ := ih (processUrlStatus fetch n time st url).1 u hmem
      exact ⟨r, by simp only [runStatusPhase]; exact h1, h2⟩

theorem runStatusPhase_of_all_fresh (fetch : String → Nat → Status) (n : Nat)
    (time : String → Int) :
    ∀ (pages : List String) (st : List (String × StatusRecord)),
      (∀ u, u ∈ pages → ∃ r, lookupRecord st u = some r ∧
        shouldRecheck (time u) r.status r.lastCheckedAt = false) →
      runStatusPhase fetch n time st pages =
        ⟨st, pages.map (fun u => (u, (lookupRecord st u).getD ⟨Status.Error, 0⟩)), 0⟩ := by
  intro pages
  induction pages with
  | nil => intro st _; simp [runStatusPhase]
  | cons url rest ih =>
    intro st h
    obtain ⟨r, h1, h2⟩ := h url (List.mem_cons_self url rest)
    have hstep := processUrlStatus_hit fetch n time st url r h1 h2
    have hrest := ih st (fun u hu => h u (List.mem_cons_of_mem url hu))
    simp only [runStatusPhase, hstep, hrest]
    simp [h1]

theorem runStatusPhase_pairs_eq (fetch : String → Nat → Status) (n : Nat)
    (time : String → Int) :
    ∀ (pages : List String) (st : List (String × StatusRecord)),
      (runStatusPhase fetch n time st pages).pairs =
        pages.map (fun u =>
          (u, (lookupRecord (runStatusPhase fetch n time st pages).cache u).getD
            ⟨Status.Error, 0⟩)) := by
  intro pages
  induction pages with
  | nil => intro st; simp [runStatusPhase]
  | cons url rest ih =>
    intro st
    obtain ⟨h1, h2⟩ := processUrlStatus_lookup_self fetch n time st url
    have hfinal :
        lookupRecord
          (runStatusPhase fetch n time (processUrlStatus fetch n time st url).1 rest).cache url
          = some (processUrlStatus fetch n time st url).2.1 :=
      runStatusPhase_preserves_fresh fetch n time rest _ url _ h1 h2
    simp only [runStatusPhase, List.map_cons]
    rw [hfinal]
    simp only [Option.getD_some]
    congr 1
    exact ih _

/-- C5: running the status-check phase twice in immediate succession (same
fetch oracle, same per-URL processing instants, same page list, no remote
state change) is idempotent: the second run leaves the cache unchanged,
makes zero remote status calls (every URL is served from the cache),
surfaces the same (url, record) pairs, and yields an identical
indexable-page partition. -/
theorem c5_idempotent (fetch : String → Nat → Status) (n : Nat) (time : String → Int)
    (st : List (String × StatusRecord)) (pages : List String) :
    (runStatusPhase fetch n time (runStatusPhase fetch n time st pages).cache pages).cache
      = (runStatusPhase fetch n time st pages).cache ∧
    (runStatusPhase fetch n time (runStatusPhase fetch n time st pages).cache pages).calls = 0 ∧
    (runStatusPhase fetch n time (runStatusPhase fetch n time st pages).cache pages).pairs
      = (runStatusPhase fetch n time st pages).pairs ∧
    indexablePagesOf
        (runStatusPhase fetch n time (runStatusPhase fetch n time st pages).cache pages).pairs
      = indexablePagesOf (runStatusPhase fetch n time st pages).pairs := by
  have hfresh : ∀ u, u ∈ pages → ∃ r,
      lookupRecord (runStatusPhase fetch n time st pages).cache u = some r ∧
      shouldRecheck (time u) r.status r.lastCheckedAt = false :=
    fun u hu => runStatusPhase_all_fresh fetch n time pages st u hu
  have hrun2 := runStatusPhase_of_all_fresh fetch n time pages
    (runStatusPhase fetch n time st pages).cache hfresh
  have hpairs := runStatusPhase_pairs_eq fetch n time pages st
  refine ⟨by rw [hrun2], by rw [hrun2], ?_, ?_⟩
  · rw [hrun2, hpairs]
  · rw [hrun2, hpairs]

theorem mem_keys_setRecord (u v : String) (r : StatusRecord) :
    ∀ m : List (String × StatusRecord),
      v ∈ (setRecord m u r).map Prod.fst → v ∈ m.map Prod.fst ∨ v = u := by
  intro m
  induction m with
  | nil =>
    intro h
    simp [setRecord] at h
    exact Or.inr h
  | cons p rest ih =>
    intro h
    by_cases hp : p.1 = u
    · simp only [setRecord, if_pos hp, List.map_cons, List.mem_cons] at h
      rcases h with h | h
      · exact Or.inr h
      · exact Or.inl (by simp only [List.map_cons, List.mem_cons]; right; exact h)
    · simp only [setRecord, if_neg hp, List.map_cons, List.mem_cons] at h
      rcases h with h | h
      · exact Or.inl (by simp only [List.map_cons, List.mem_cons]; left; exact h)
      · rcases ih h with h2 | h2
        · exact Or.inl (by simp only [List.map_cons, List.mem_cons]; right; exact h2)
        · exact Or.inr h2

theorem keys_nodup_setRecord (u : String) (r : StatusRecord) :
    ∀ m : List (String × StatusRecord),
      (m.map Prod.fst).Nodup → ((setRecord m u r).map Prod.fst).Nodup := by
  intro m
  induction m with
  | nil => intro _; simp [setRecord]
  | cons p rest ih =>
    intro h
    simp only [List.map_cons, List.nodup_cons] at h
    obtain ⟨hp1, hp2⟩ := h
    by_cases hp : p.1 = u
    · simp only [setRecord, if_pos hp, List.map_cons, List.nodup_cons]
      exact ⟨by rw [← hp]; exact hp1, hp2⟩
    · simp only [setRecord, if_neg hp, List.map_cons, List.nodup_cons]
      refine ⟨?_, ih hp2⟩
      intro hmem
      rcases mem_keys_setRecord u p.1 r rest hmem with h2 | h2
      · exact hp1 h2
      · exact hp h2

theorem processUrlStatus_keys_nodup (fetch : String → Nat → Status) (n : Nat)
    (time : String → Int) (st : List (String × StatusRecord)) (url : String)
    (h : (st.map Prod.fst).Nodup) :
    (((processUrlStatus fetch n time st url).1).map Prod.fst).Nodup := by
  unfold processUrlStatus
  cases hlook : lookupRecord st url with
  | none => simpa using keys_nodup_setRecord url _ st h
  | some r0 =>
    by_cases hr : shouldRecheck (time url) r0.status r0.lastCheckedAt
    · simpa [hr] using keys_nodup_setRecord url _ st h
    · simp only [Bool.not_eq_true] at hr
      simpa [hr] using h

theorem runStatusPhase_keys_nodup (fetch : String → Nat → Status) (n : Nat)
    (time : String → Int) :
    ∀ (pages : List String) (st : List (String × StatusRecord)),
      (st.map Prod.fst).Nodup →
      (((runStatusPhase fetch n time st pages).cache).map Prod.fst).Nodup := by
  intro pages
  induction pages with
  | nil => intro st h; simpa [runStatusPhase] using h
  | cons url rest ih =>
    intro st h
    simp only [runStatusPhase]
    exact ih _ (processUrlStatus_keys_nodup fetch n time st url h)

theorem processUrlStatus_lookup_cases (fetch : String → Nat → Status) (n : Nat)
    (time : String → Int) (st : List (String × StatusRecord)) (url u : String) :
    lookupRecord (processUrlStatus fetch n time st url).1 u = lookupRecord st u ∨
    ∃ r, lookupRecord (processUrlStatus fetch n time st url).1 u = some r ∧
      r.lastCheckedAt = time u := by
  by_cases heq : url = u
  · subst heq
    unfold processUrlStatus
    cases hlook : lookupRecord st url with
    | none =>
      right
      refine ⟨⟨(statusCheck (fetch url) n).status, time url⟩, ?_, rfl⟩
      simp [lookupRecord_setRecord_self]
    | some r0 =>
      by_cases hr : shouldRecheck (time url) r0.status r0.lastCheckedAt
      · right
        refine ⟨⟨(statusCheck (fetch url) n).status, time url⟩, ?_, rfl⟩
        simp [hr, lookupRecord_setRecord_self]
      · left
        simp only [Bool.not_eq_true] at hr
        simp [hr, hlook]
  · left
    exact processUrlStatus_lookup_other fetch n time st url u heq

theorem runStatusPhase_lookup_cases (fetch : String → Nat → Status) (n : Nat)
    (time : String → Int) :
    ∀ (pages : List String) (st : List (String × StatusRecord)) (u : String),
      lookupRecord (runStatusPhase fetch n time st pages).cache u = lookupRecord st u ∨
      ∃ r, lookupRecord (runStatusPhase fetch n time st pages).cache u = some r ∧
        r.lastCheckedAt = time u := by
  intro pages
  induction pages with
  | nil => intro st u; left; simp [runStatusPhase]
  | cons url rest ih =>
    intro st u
    rcases ih (processUrlStatus fetch n time st url).1 u with hrec | hrec
    · rcases processUrlStatus_lookup_cases fetch n time st url u with hstep | hstep
      · left
        simp only [runStatusPhase]
        rw [hrec, hstep]
      · obtain ⟨r, h1, h2⟩ := hstep
        right
        refine ⟨r, ?_, h2⟩
        simp only [runStatusPhase]
        rw [hrec, h1]
    · obtain ⟨r, h1, h2⟩ := hrec
      right
      refine ⟨r, ?_, h2⟩
      simp only [runStatusPhase]
      exact h1

/-- Counterexample to C4 as stated: a run whose every processing instant is
at time 100 (so the run start is 100) leaves a processed URL with a cached
record whose lastCheckedAt is 0, before the run start — the cache hit on a
fresh non-indexable record keeps the old timestamp, so not every record of a
processed URL has lastCheckedAt at or after the run start. -/
theorem c4_counterexample :
    (∀ u, u ∈ (["u"] : List String) → (100 : Int) ≤ (fun _ => (100 : Int)) u) ∧
    lookupRecord
        (runStatusPhase (fun _ _ => Status.Error) 1 (fun _ => (100 : Int))
          [("u", ⟨Status.SubmittedAndIndexed, 0⟩)] ["u"]).cache "u"
      = some ⟨Status.SubmittedAndIndexed, 0⟩ ∧
    ¬ ((0 : Int) ≥ 100) := by
  refine ⟨by decide, rfl, by decide⟩

/-- C4 amended: after the status-check phase the persisted store has exactly
one record per processed URL (keys stay duplicate-free), and each processed
URL's final record either was written by a live fetch during the run — its
lastCheckedAt is that URL's processing instant, hence at or after the run
start — or is the URL's unchanged pre-run record, kept only because
shouldRecheck rejected rechecking it (such a record may keep a lastCheckedAt
before the run start).  Every live fetch result, failures coerced to Error
included, overwrites the URL's record with the new status and the processing
instant, and the whole store is the single cache value the phase hands to
the one writeFileSync at its end. -/
theorem c4_cache_after_run (fetch : String → Nat → Status) (n : Nat) (time : String → Int)
    (st : List (String × StatusRecord)) (pages : List String) (runStart : Int)
    (hnodup : (st.map Prod.fst).Nodup) (htime : ∀ u, u ∈ pages → runStart ≤ time u) :
    (((runStatusPhase fetch n time st pages).cache).map Prod.fst).Nodup ∧
    ∀ u, u ∈ pages → ∃ r,
      lookupRecord (runStatusPhase fetch n time st pages).cache u = some r ∧
      shouldRecheck (time u) r.status r.lastCheckedAt = false ∧
      (runStart ≤ r.lastCheckedAt ∨ lookupRecord st u = some r) := by
  refine ⟨runStatusPhase_keys_nodup fetch n time pages st hnodup, ?_⟩
  intro u hu
  obtain ⟨r, h1, h2⟩ := runStatusPhase_all_fresh fetch n time pages st u hu
  refine ⟨r, h1, h2, ?_⟩
  rcases runStatusPhase_lookup_cases fetch n time pages st u with hc | hc
  · right
    rw [← hc]
    exact h1
  · obtain ⟨r2, hc2, ht⟩ := hc
    left
    have hrr : r = r2 := by
      have := h1.symm.trans hc2
      injection this
    rw [hrr, ht]
    exact htime u hu

/-- Witness for c4_cache_after_run: an empty initial cache, one page
processed at instant 5 with run start 3. -/
theorem c4_cache_after_run_witness :
    (((([] : List (String × StatusRecord))).map Prod.fst).Nodup ∧
      ∀ u, u ∈ (["a"] : List String) → (3 : Int) ≤ (fun _ => (5 : Int)) u) ∧
    ((((runStatusPhase (fun _ _ => Status.SubmittedAndIndexed) 1 (fun _ => (5 : Int))
        [] ["a"]).cache).map Prod.fst).Nodup ∧
     ∀ u, u ∈ (["a"] : List String) → ∃ r,
       lookupRecord (runStatusPhase (fun _ _ => Status.SubmittedAndIndexed) 1
         (fun _ => (5 : Int)) [] ["a"]).cache u = some r ∧
       shouldRecheck ((fun _ => (5 : Int)) u) r.status r.lastCheckedAt = false ∧
       ((3 : Int) ≤ r.lastCheckedAt ∨ lookupRecord [] u = some r)) :=
  ⟨⟨by decide, by decide⟩,
   c4_cache_after_run (fun _ _ => Status.SubmittedAndIndexed) 1 (fun _ => (5 : Int))
     [] ["a"] 3 (by decide) (by decide)⟩

theorem buildPoolGo_spec (authorize : String → String → Option String)
    (checkSiteUrl : String → Option String) :
    ∀ (creds : List ServiceAccount),
      (∀ c, c ∈ creds → c.client_email ≠ "" ∧ c.private_key ≠ "") →
      ∀ (acc : List Session) (v : Option String),
        ∃ pool vout,
          buildPoolGo authorize checkSiteUrl creds acc v = some (acc ++ pool, vout) ∧
          pool.map Session.credential =
            creds.filter (credentialSucceeds authorize checkSiteUrl) ∧
          (vout = none ↔ (v = none ∧ pool = [])) := by
  intro creds
  induction creds with
  | nil =>
    intro _ acc v
    exact ⟨[], v, by simp [buildPoolGo], by simp, by simp⟩
  | cons c rest ih =>
    intro h acc v
    obtain ⟨he, hk⟩ := h c (List.mem_cons_self c rest)
    have hrest := fun c2 hc2 => h c2 (List.mem_cons_of_mem c hc2)
    cases hauth : getAccessToken authorize c.client_email c.private_key with
    | fatalExit =>
      exfalso
      unfold getAccessToken at hauth
      rw [if_neg he, if_neg hk] at hauth
      cases hau : authorize c.client_email c.private_key with
      | none => rw [hau] at hauth; simp at hauth
      | some t => rw [hau] at hauth; simp at hauth
    | failure =>
      have hfail : credentialSucceeds authorize checkSiteUrl c = false := by
        simp [credentialSucceeds, hauth]
      obtain ⟨pool, vout, h1, h2, h3⟩ := ih hrest acc v
      refine ⟨pool, vout, ?_, ?_, h3⟩
      · simp only [buildPoolGo, hauth]
        exact h1
      · simp [List.filter_cons, hfail, h2]
    | token t =>
      cases hchk : checkSiteUrl t with
      | none =>
        have hfail : credentialSucceeds authorize checkSiteUrl c = false := by
          simp [credentialSucceeds, hauth, hchk]
        obtain ⟨pool, vout, h1, h2, h3⟩ := ih hrest acc v
        refine ⟨pool, vout, ?_, ?_, h3⟩
        · simp only [buildPoolGo, hauth, hchk]
          exact h1
        · simp [List.filter_cons, hfail, h2]
      | some u =>
        have hsucc : credentialSucceeds authorize checkSiteUrl c = true := by
          simp [credentialSucceeds, hauth, hchk]
        cases v with
        | none =>
          obtain ⟨pool, vout, h1, h2, h3⟩ := ih hrest (acc ++ [⟨c, t⟩]) (some u)
          refine ⟨⟨c, t⟩ :: pool, vout, ?_, ?_, ?_⟩
          · simp only [buildPoolGo, hauth, hchk]
            rw [h1]
            simp
          · simp [List.filter_cons, hsucc, h2]
          · constructor
            · intro hvout
              exact absurd (h3.mp hvout).1 (by simp)
            · intro hcon
              exact absurd hcon.2 (List.cons_ne_nil _ _)
        | some w =>
          obtain ⟨pool, vout, h1, h2, h3⟩ := ih hrest (acc ++ [⟨c, t⟩]) (some w)
          refine ⟨⟨c, t⟩ :: pool, vout, ?_, ?_, ?_⟩
          · simp only [buildPoolGo, hauth, hchk]
            rw [h1]
            simp
          · simp [List.filter_cons, hsucc, h2]
          · constructor
            · intro hvout
              exact absurd (h3.mp hvout).1 (by simp)
            · intro hcon
              exact absurd hcon.2 (List.cons_ne_nil _ _)

/-- Counterexample to C3 as stated: a credential with an empty client_email
makes getAccessToken terminate the whole process (none here), even though
the other credential would succeed — so a credential whose token exchange
fails is not always dropped with a warning, and the run can terminate
fatally although a credential succeeds. -/
theorem c3_counterexample :
    credentialPoolPhase (fun _ _ => some "tok") (fun _ => some "site")
        [⟨"", "key"⟩, ⟨"sa@example", "key"⟩] = none ∧
    credentialSucceeds (fun _ _ => some "tok") (fun _ => some "site")
        ⟨"sa@example", "key"⟩ = true :=
  ⟨rfl, rfl⟩

/-- C3 amended: provided every loaded credential has a nonempty client_email
and private_key, each credential is attempted independently — one whose
token exchange throws or whose ownership check fails is dropped with a
warning without affecting the others, the surviving pool holds exactly the
succeeding credentials in input order, and the phase terminates fatally iff
zero credentials succeed.  A credential with an empty client_email or
private_key instead terminates the process from inside getAccessToken
regardless of the other credentials. -/
theorem c3_credential_pool (authorize : String → String → Option String)
    (checkSiteUrl : String → Option String) (creds : List ServiceAccount)
    (h : ∀ c, c ∈ creds → c.client_email ≠ "" ∧ c.private_key ≠ "") :
    ∃ pool vout,
      buildPool authorize checkSiteUrl creds = some (pool, vout) ∧
      pool.map Session.credential =
        creds.filter (credentialSucceeds authorize checkSiteUrl) ∧
      (credentialPoolPhase authorize checkSiteUrl creds = none ↔
        ∀ c, c ∈ creds → credentialSucceeds authorize checkSiteUrl c = false) := by
  obtain ⟨pool, vout, h1, h2, h3⟩ := buildPoolGo_spec authorize checkSiteUrl creds h [] none
  simp only [List.nil_append] at h1
  have h1b : buildPool authorize checkSiteUrl creds = some (pool, vout) := h1
  refine ⟨pool, vout, h1b, h2, ?_⟩
  have hph : credentialPoolPhase authorize checkSiteUrl creds =
      (if pool.length = 0 then none
       else
         match vout with
         | none => none
         | some u => some (pool, u)) := by
    unfold credentialPoolPhase
    rw [h1b]
  rw [hph]
  constructor
  · intro hnone c hc
    by_contra hcon
    have hctrue : credentialSucceeds authorize checkSiteUrl c = true := by
      simpa using hcon
    have hfil : c ∈ creds.filter (credentialSucceeds authorize checkSiteUrl) :=
      List.mem_filter.mpr ⟨hc, hctrue⟩
    rw [← h2] at hfil
    have hpool : pool ≠ [] := by
      intro hp
      subst hp
      simp at hfil
    have hlen : ¬ pool.length = 0 := by
      simpa [List.length_eq_zero] using hpool
    rw [if_neg hlen] at hnone
    have hvout : vout ≠ none := by
      intro hv
      exact hpool (h3.mp hv).2
    cases vout with
    | none => exact hvout rfl
    | some u => simp at hnone
  · intro hall
    have hfil : creds.filter (credentialSucceeds authorize checkSiteUrl) = [] :=
      List.filter_eq_nil_iff.mpr (fun c hc => by simp [hall c hc])
    have hpool : pool = [] := by
      have hmap := h2.trans hfil
      exact List.map_eq_nil_iff.mp hmap
    subst hpool
    simp

/-- Witness for c3_credential_pool: one well-formed credential whose token
exchange and ownership check both succeed. -/
theorem c3_credential_pool_witness :
    (∀ c, c ∈ ([⟨"sa@example", "key"⟩] : List ServiceAccount) →
      c.client_email ≠ "" ∧ c.private_key ≠ "") ∧
    (∃ pool vout,
      buildPool (fun _ _ => some "tok") (fun _ => some "site")
          [⟨"sa@example", "key"⟩] = some (pool, vout) ∧
      pool.map Session.credential =
        ([⟨"sa@example", "key"⟩] : List ServiceAccount).filter
          (credentialSucceeds (fun _ _ => some "tok") (fun _ => some "site")) ∧
      (credentialPoolPhase (fun _ _ => some "tok") (fun _ => some "site")
          [⟨"sa@example", "key"⟩] = none ↔
        ∀ c, c ∈ ([⟨"sa@example", "key"⟩] : List ServiceAccount) →
          credentialSucceeds (fun _ _ => some "tok") (fun _ => some "site") c = false)) :=
  ⟨by decide, c3_credential_pool _ _ _ (by decide)⟩

/-- C6: with no explicit URL list and zero discovered sitemaps the run exits
fatally before any batch processing (the orchestrator yields none, so no
status-check phase output exists); a non-empty explicit URL list is never
fatal at page-set resolution — even when checkCustomUrls resolves it to the
empty list — and the status-check phase runs on the checked list. -/
theorem c6_page_source (fetch : String → Nat → Status) (n : Nat) (time : String → Int)
    (sitemaps pagesFromSitemaps : List String) (chk : List String → List String)
    (st : List (String × StatusRecord)) :
    runOrchestrator fetch n time none [] pagesFromSitemaps chk st = none ∧
    (∀ l : List String, l ≠ [] →
      runOrchestrator fetch n time (some l) sitemaps pagesFromSitemaps chk st =
        some (runStatusPhase fetch n time st (chk l))) := by
  constructor
  · rfl
  · intro l hl
    have hlen : ¬ l.length = 0 := by
      simpa [List.length_eq_zero] using hl
    simp [runOrchestrator, resolvePages, hlen]

/-- Witness for c6_page_source: a singleton explicit list that
checkCustomUrls resolves to the empty list is not fatal. -/
theorem c6_page_source_witness :
    (["a"] : List String) ≠ [] ∧
    runOrchestrator (fun _ _ => Status.Error) 1 (fun _ => (0 : Int)) (some ["a"])
        [] [] (fun _ => []) [] =
      some (runStatusPhase (fun _ _ => Status.Error) 1 (fun _ => (0 : Int)) [] []) :=
  ⟨by decide,
   (c6_page_source (fun _ _ => Status.Error) 1 (fun _ => (0 : Int)) [] [] (fun _ => []) []).2
     ["a"] (by decide)⟩

/-- C9: an explicit empty URL list is not used directly: page-set resolution
with some [] behaves exactly as when no list was supplied at all (it falls
through to sitemap discovery), and with zero registered sitemaps the run
exits fatally before any batch processing. -/
theorem c9_empty_list_falls_through (fetch : String → Nat → Status) (n : Nat)
    (time : String → Int) (sitemaps pagesFromSitemaps : List String)
    (chk : List String → List String) (st : List (String × StatusRecord)) :
    resolvePages (some []) sitemaps pagesFromSitemaps chk =
      resolvePages none sitemaps pagesFromSitemaps chk ∧
    runOrchestrator fetch n time (some []) [] pagesFromSitemaps chk st = none :=
  ⟨rfl, rfl⟩

theorem refreshAt_length (getTok : ServiceAccount → String) :
    ∀ (pool : List Session) (i : Nat), (refreshAt getTok pool i).length = pool.length := by
  intro pool
  induction pool with
  | nil => intro i; rfl
  | cons s rest ih =>
    intro i
    cases i with
    | zero => rfl
    | succ j => simp [refreshAt, ih j]

theorem refreshAt_map_credential (getTok : ServiceAccount → String) :
    ∀ (pool : List Session) (i : Nat),
      (refreshAt getTok pool i).map Session.credential = pool.map Session.credential := by
  intro pool
  induction pool with
  | nil => intro i; rfl
  | cons s rest ih =>
    intro i
    cases i with
    | zero => rfl
    | succ j => simp [refreshAt, ih j]

theorem refreshAt_getD_self (getTok : ServiceAccount → String) (d : Session) :
    ∀ (pool : List Session) (i : Nat), i < pool.length →
      (refreshAt getTok pool i).getD i d =
        ⟨(pool.getD i d).credential, getTok (pool.getD i d).credential⟩ := by
  intro pool
  induction pool with
  | nil => intro i h; exact absurd h (Nat.not_lt_zero i)
  | cons s rest ih =>
    intro i h
    cases i with
    | zero => rfl
    | succ j =>
      simp only [refreshAt, List.getD_cons_succ]
      exact ih j (by simpa using h)

theorem refreshAt_getD_other (getTok : ServiceAccount → String) (d : Session) :
    ∀ (pool : List Session) (i j : Nat), j ≠ i →
      (refreshAt getTok pool i).getD j d = pool.getD j d := by
  intro pool
  induction pool with
  | nil => intro i j _; rfl
  | cons s rest ih =>
    intro i j h
    cases i with
    | zero =>
      cases j with
      | zero => exact absurd rfl h
      | succ j2 => rfl
    | succ i2 =>
      cases j with
      | zero => rfl
      | succ j2 =>
        simp only [refreshAt, List.getD_cons_succ]
        exact ih i2 j2 (fun hh => h (by rw [hh]))

/-- C7: rotateAccount advances the active index by one over the
valid-credential list modulo its length (wrapping), keeps the pool's length
and credential membership unchanged (rotation never removes a candidate),
refreshes the newly active session's access token in the shared pool, and
leaves every other position untouched. -/
theorem c7_rotate (getTok : ServiceAccount → String) (pool : List Session) (idx : Nat)
    (d : Session) (h : pool ≠ []) :
    (rotateAccount getTok pool idx).2 = (idx + 1) % pool.length ∧
    (rotateAccount getTok pool idx).1.length = pool.length ∧
    (rotateAccount getTok pool idx).1.map Session.credential =
      pool.map Session.credential ∧
    (rotateAccount getTok pool idx).1.getD ((idx + 1) % pool.length) d =
      ⟨(pool.getD ((idx + 1) % pool.length) d).credential,
        getTok (pool.getD ((idx + 1) % pool.length) d).credential⟩ ∧
    (∀ j, j ≠ (idx + 1) % pool.length →
      (rotateAccount getTok pool idx).1.getD j d = pool.getD j d) := by
  have hlen : 0 < pool.length := List.length_pos.mpr h
  have hmod : (idx + 1) % pool.length < pool.length := Nat.mod_lt _ hlen
  exact ⟨rfl, refreshAt_length getTok pool _, refreshAt_map_credential getTok pool _,
    refreshAt_getD_self getTok d pool _ hmod,
    fun j hj => refreshAt_getD_other getTok d pool _ j hj⟩

/-- Witness for c7_rotate: a one-session pool, rotation wraps back to index
0 and refreshes that session's token. -/
theorem c7_rotate_witness :
    ([⟨⟨"sa", "k"⟩, "t"⟩] : List Session) ≠ [] ∧
    (rotateAccount (fun _ => "t2") [⟨⟨"sa", "k"⟩, "t"⟩] 0).2 = (0 + 1) % 1 :=
  ⟨by decide,
   (c7_rotate (fun _ => "t2") [⟨⟨"sa", "k"⟩, "t"⟩] 0 ⟨⟨"", ""⟩, ""⟩ (by decide)).1⟩
